import Mathlib

/-!
Verification development for the error-tree aggregation engine of
`trio/_core/_multierror.py` (MultiError, `_filter_impl`, `concat_tb`,
`MultiErrorCatcher`, and the monkey-patched `TracebackException`
renderer).

Modelling conventions, kept uniform through the file:

* Python object identity is modelled by a numeric identity tag (`eid` on
  exceptions, `tid` on traceback objects).  Every construction site in the
  source that allocates a fresh object threads an allocation counter and
  stamps the new object with it, so "is"-comparisons in the source become
  value comparisons in the model under the discipline that distinct live
  objects carry distinct tags.
* A traceback (`__traceback__`) is `None` or a linked chain of frame
  records.  For `concat_tb` itself we model the chain precisely as linked
  objects with identities (`TB` below), which is what the identity claims
  about `concat_tb` need.  Inside the filter engine only the *frame
  sequence* of a traceback matters, so there the `__traceback__` field is
  abstracted to its frame list (`List Nat`), with `None` represented by
  `[]` and `concat_tb` by list append; theorem `concat_tb_frames` proves
  this abstraction sound at the frame-sequence level.
* Frames are opaque and modelled as `Nat`.
-/

namespace MultiErrorModel

/-! ## Tracebacks and `concat_tb` (source lines 279-369)

A CPython traceback chain is `None` or a linked sequence of traceback
objects, each holding frame data and a `tb_next` link.  We represent a
chain as the list of its objects in order, one entry `(tid, frame)` per
object (`tid` the object identity, `frame` its bundled
`tb_frame`/`tb_lasti`/`tb_lineno` data); `None` is the empty list (no
chain has zero objects, so nothing is conflated). -/

/-- One traceback object: identity tag and frame record. -/
structure TBObj where
  tid : Nat
  frame : Nat
  deriving DecidableEq, Repr

/-- A traceback chain (`None` ↦ `[]`): the objects of the chain in
`tb_next` order.  The `while pointer is not None` walk in `concat_tb`
that collects `head_tbs` yields exactly this list. -/
abbrev TBChain := List TBObj

/-- The frame sequence of a chain. -/
def tbFrames (c : TBChain) : List Nat := c.map TBObj.frame

/-- `copy_tb(base_tb, tb_next)`: allocate one fresh traceback object whose
frame data is copied from `base_tb` and whose `tb_next` is the chain
`next`. -/
def copy_tb (ctr : Nat) (base : TBObj) (next : TBChain) : TBChain × Nat :=
  (⟨ctr, base.frame⟩ :: next, ctr + 1)

/-- `concat_tb(head, tail)`: walk `head` iteratively collecting its
objects (`head_tbs`), then rebuild copies of them from the last one
backwards, ending on `tail`.  Returns the new chain and the advanced
allocation counter. -/
def concat_tb (ctr : Nat) (head tail : TBChain) : TBChain × Nat :=
  head.reverse.foldl
    (fun cur tb =>
      let (t, c') := copy_tb cur.2 tb cur.1
      (t, c'))
    (tail, ctr)

/-! ## Exception objects (the error tree)

An exception is a leaf (any non-`MultiError` `BaseException`) or a
`MultiError` node with an ordered list of child exceptions.  Each carries:
its identity `eid`, the frame list of its `__traceback__` (see the header
comment), and the identity of its `__context__` exception, if set. -/

inductive ETree where
  | leaf (eid : Nat) (tb : List Nat) (ctx : Option Nat)
  | node (eid : Nat) (tb : List Nat) (ctx : Option Nat) (children : List ETree)

mutual

def ETree.decEq : (a b : ETree) → Decidable (a = b)
  | .leaf i t c, .leaf i' t' c' =>
    decidable_of_iff (i = i' ∧ t = t' ∧ c = c')
      (by constructor
          · rintro ⟨rfl, rfl, rfl⟩; rfl
          · rintro h; cases h; exact ⟨rfl, rfl, rfl⟩)
  | .leaf _ _ _, .node _ _ _ _ => isFalse (fun h => ETree.noConfusion h)
  | .node _ _ _ _, .leaf _ _ _ => isFalse (fun h => ETree.noConfusion h)
  | .node i t c cs, .node i' t' c' cs' =>
    match ETree.decEqList cs cs' with
    | isTrue hcs =>
      decidable_of_iff (i = i' ∧ t = t' ∧ c = c')
        (by constructor
            · rintro ⟨rfl, rfl, rfl⟩; rw [hcs]
            · rintro h; cases h; exact ⟨rfl, rfl, rfl⟩)
    | isFalse hcs => isFalse (fun h => by cases h; exact hcs rfl)

def ETree.decEqList : (a b : List ETree) → Decidable (a = b)
  | [], [] => isTrue rfl
  | [], _ :: _ => isFalse (fun h => List.noConfusion h)
  | _ :: _, [] => isFalse (fun h => List.noConfusion h)
  | x :: xs, y :: ys =>
    match ETree.decEq x y, ETree.decEqList xs ys with
    | isTrue hx, isTrue hxs => isTrue (by rw [hx, hxs])
    | isFalse hx, _ => isFalse (fun h => by cases h; exact hx rfl)
    | _, isFalse hxs => isFalse (fun h => by cases h; exact hxs rfl)

end

instance : DecidableEq ETree := ETree.decEq

namespace ETree

def eid : ETree → Nat
  | leaf i _ _ => i
  | node i _ _ _ => i

def tb : ETree → List Nat
  | leaf _ t _ => t
  | node _ t _ _ => t

def ctx : ETree → Option Nat
  | leaf _ _ c => c
  | node _ _ c _ => c

/-- `exc.__context__ = v` (mutation of the context link modelled as a
functional update of the object's field). -/
def setCtx : ETree → Option Nat → ETree
  | leaf i t _, v => leaf i t v
  | node i t _ cs, v => node i t v cs

/-- `exc.__traceback__ = v` as a functional field update. -/
def setTb : ETree → List Nat → ETree
  | leaf i _ c, v => leaf i v c
  | node i _ c cs, v => node i v c cs

end ETree

/-- A value passed to `MultiError(...)`: an exception object or any other
Python value (which `__new__` rejects with `TypeError`). -/
inductive PyVal where
  | exc (e : ETree)
  | nonExc (v : Nat)
  deriving DecidableEq

def PyVal.isExc : PyVal → Bool
  | .exc _ => true
  | .nonExc _ => false

/-- The exception-only core of `MultiError.__new__` (source lines
198-210): a length-1 list returns its sole element unchanged (same
object, no allocation); otherwise a fresh `MultiError` object is
allocated holding exactly the given children in order, with
`__traceback__ = None` and `__context__ = None`. -/
def MultiError_new (ctr : Nat) (excs : List ETree) : ETree × Nat :=
  match excs with
  | [e] => (e, ctr)
  | _ => (.node ctr [] none excs, ctr + 1)

/-- `MultiError.__new__` in full (source lines 193-210): first the
`isinstance` loop raising `TypeError` at the first non-exception element,
then the length dispatch of `MultiError_new`. -/
def MultiError_build (ctr : Nat) (vals : List PyVal) :
    Except String (ETree × Nat) :=
  if vals.all PyVal.isExc then
    .ok (MultiError_new ctr (vals.filterMap fun v =>
      match v with | .exc e => some e | .nonExc _ => none))
  else
    .error "TypeError"

/-! ## The filter engine `_filter_impl` (source lines 20-120)

The handler is a per-leaf transformation.  `filter_tree` threads a state
through the traversal: the allocation counter, the `preserved` set of
identities of `MultiError` nodes returned unchanged, and (as pure
instrumentation, read by no branch of the algorithm) the list of leaf
identities the handler has been invoked on, in invocation order. -/

structure FSt where
  ctr : Nat
  preserved : List Nat
  calls : List Nat
  deriving DecidableEq

abbrev Handler := ETree → Option ETree

mutual

/-- `filter_tree(exc, preserved)` (source lines 79-101).  Identity tests
(`is`) on exceptions become value comparisons, per the identity-tag
discipline in the header. -/
def filter_tree (h : Handler) (st : FSt) : ETree → FSt × Option ETree
  | .leaf i t c =>
    -- non-MultiError branch: `new_exc = handler(exc)` plus implicit
    -- exception chaining for genuine replacements
    let st1 : FSt := ⟨st.ctr, st.preserved, st.calls ++ [i]⟩
    match h (.leaf i t c) with
    | none => (st1, none)
    | some r =>
      if r = ETree.leaf i t c then (st1, some (ETree.leaf i t c))
      else (st1, some (r.setCtx (some i)))
  | .node i t c cs =>
    let res := filter_list h st cs
    let st1 := res.1
    let newExcs := res.2.1
    let changed := res.2.2
    if newExcs.isEmpty then (st1, none)
    else if changed then
      let mres := MultiError_new st1.ctr newExcs
      (⟨mres.2, st1.preserved, st1.calls⟩, some mres.1)
    else
      (⟨st1.ctr, i :: st1.preserved, st1.calls⟩, some (ETree.node i t c cs))

/-- The `for child_exc in exc.exceptions` loop of `filter_tree`: returns
the surviving children (`new_exceptions`) and the `changed` flag. -/
def filter_list (h : Handler) (st : FSt) : List ETree → FSt × List ETree × Bool
  | [] => (st, [], false)
  | e :: rest =>
    let res := filter_tree h st e
    let changed1 : Bool := res.2 != some e  -- `new_child_exc is not child_exc`
    let keep : List ETree := match res.2 with | none => [] | some r => [r]
    let res2 := filter_list h res.1 rest
    (res2.1, keep ++ res2.2.1, changed1 || res2.2.2)

end

mutual

/-- `push_tb_down(tb, exc, preserved)` (source lines 103-112).  The source
mutates `__traceback__` fields of the *original* tree; we return the
mutation log, in program order, as pairs (object identity, value written);
`applyTb` below replays it. -/
def push_tb_down (preserved : List Nat) (tb : List Nat) (t : ETree) :
    List (Nat × List Nat) :=
  if t.eid ∈ preserved then []
  else
    match t with
    | .leaf i lt _ => [(i, tb ++ lt)]
    | .node i nt _ cs => push_list preserved (tb ++ nt) cs ++ [(i, [])]

def push_list (preserved : List Nat) (tb : List Nat) :
    List ETree → List (Nat × List Nat)
  | [] => []
  | e :: rest => push_tb_down preserved tb e ++ push_list preserved tb rest

end

/-- The final value the mutation log leaves in the `__traceback__` field
of the object with identity `i`, if the log touches it. -/
def lastTb (asg : List (Nat × List Nat)) (i : Nat) : Option (List Nat) :=
  ((asg.filter fun p => p.1 == i).getLast?).map Prod.snd

mutual

/-- Replay the `push_tb_down` mutation log on a tree: every node whose
identity the log assigns gets the last value written (the filtered tree
shares kept leaves and preserved subtrees with the original, so mutations
of originals are visible through it). -/
def applyTb (asg : List (Nat × List Nat)) : ETree → ETree
  | .leaf i t c => .leaf i ((lastTb asg i).getD t) c
  | .node i t c cs => .node i ((lastTb asg i).getD t) c (applyTbList asg cs)

def applyTbList (asg : List (Nat × List Nat)) : List ETree → List ETree
  | [] => []
  | e :: rest => applyTb asg e :: applyTbList asg rest

end

/-- `_filter_impl(handler, root_exc)` (source lines 114-120): the shape
pass, then the chain-redistribution pass over the original tree.  Returns
the new root with the mutation log replayed onto it, plus the final
traversal state and the raw log (for stating invariants). -/
def filter_impl (h : Handler) (ctr : Nat) (root : ETree) :
    Option ETree × FSt × List (Nat × List Nat) :=
  let res := filter_tree h ⟨ctr, [], []⟩ root
  let asg := push_tb_down res.1.preserved [] root
  ((res.2.map (applyTb asg)), res.1, asg)

/-! ## The catch guard `MultiErrorCatcher.__exit__` (source lines 135-158) -/

inductive CatchOutcome where
  | reraiseOriginal
  | suppress
  | propagate (e : ETree)
  deriving DecidableEq

/-- `MultiErrorCatcher.__exit__` with a non-`None` propagating exception.
`raise filtered_exc` makes Python unconditionally overwrite
`filtered_exc.__context__` with the exception being handled (`exc`); the
`finally` block then writes back the saved `old_context`.  Both writes are
modelled explicitly. -/
def catcher_exit (h : Handler) (ctr : Nat) (exc : ETree) : CatchOutcome :=
  match (filter_impl h ctr exc).1 with
  | some f =>
    if f = exc then .reraiseOriginal  -- let the interpreter re-raise it
    else
      let old_context := f.ctx
      let inflight := f.setCtx (some exc.eid)  -- the raise's bookkeeping
      .propagate (inflight.setCtx old_context) -- restored while in flight
  | none => .suppress  -- swallow the exception

/-! ## Observation functions used by the statements -/

mutual

/-- The leaves of a tree, in pre-order (depth-first, left-to-right). -/
def leaves : ETree → List ETree
  | .leaf i t c => [.leaf i t c]
  | .node _ _ _ cs => leavesList cs

def leavesList : List ETree → List ETree
  | [] => []
  | e :: rest => leaves e ++ leavesList rest

end

mutual

/-- Well-formed shape per the data model: every aggregate node has at
least one child (the source's normalization in fact guarantees ≥ 2 for
trees it builds; one is all the identity claims need). -/
def nonEmptyNodes : ETree → Bool
  | .leaf _ _ _ => true
  | .node _ _ _ cs => !cs.isEmpty && nonEmptyNodesList cs

def nonEmptyNodesList : List ETree → Bool
  | [] => true
  | e :: rest => nonEmptyNodes e && nonEmptyNodesList rest

end

mutual

/-- For each leaf, in pre-order: its identity paired with its end-to-end
diagnostic chain — the concatenation of the `__traceback__` frame lists of
the nodes on the root-to-leaf path, `acc` being the frames accumulated
above. -/
def leafChains (acc : List Nat) : ETree → List (Nat × List Nat)
  | .leaf i t _ => [(i, acc ++ t)]
  | .node _ t _ cs => leafChainsList (acc ++ t) cs

def leafChainsList (acc : List Nat) : List ETree → List (Nat × List Nat)
  | [] => []
  | e :: rest => leafChains acc e ++ leafChainsList acc rest

end

/-! ## The renderer: monkey-patched `TracebackException`
(source lines 380-451)

Exception objects as the renderer sees them: identity, an opaque
description token (type, message and stack summary), the `MultiError`
children if any, and the `__cause__` / `__context__` /
`__suppress_context__` links.  Cause and context are embedded as
subterms; an exception reachable along several paths appears as several
subterms carrying the same identity tag, which is what the identity-keyed
`_seen` set of the source reacts to. -/

inductive RExc where
  | mk (eid : Nat) (desc : Nat) (isMulti : Bool) (children : List RExc)
      (cause : Option RExc) (ctxLink : Option RExc) (suppress : Bool)

def RExc.eid : RExc → Nat
  | .mk i _ _ _ _ _ _ => i

/-- The captured `TracebackException` data: description, captured cause
and context, `__suppress_context__`, and the `embedded` list the patched
`__init__` adds. -/
inductive TBE where
  | mk (desc : Nat) (cause : Option TBE) (ctxTE : Option TBE)
      (suppress : Bool) (embedded : List TBE)

mutual

/-- The patched `traceback_exception_init` (source lines 383-436) merged
with the recursive CPython `TracebackException.__init__` it wraps (which
adds the exception to `_seen` and captures `__cause__` / `__context__`
recursively through the patched class, skipping members of `_seen`).
The `_seen` set is mutated in place by the original init, so the wrapper
and the caller observe its additions; we model the mutation by threading
the updated set out.  Embedded children are captured through
`from_exception` with `_seen = None if seen_was_none else set(_seen)`,
so their additions stay in their private copies. -/
def tbe_init : RExc → Option (List Nat) → TBE × List Nat
  | .mk i d im cs ca co sp, seenOpt =>
    -- original __init__: `if _seen is None: _seen = set()` + `_seen.add(id(exc_value))`
    let seen0 := seenOpt.getD []
    let seen1 := seen0.insert i
    let causeRes : Option TBE × List Nat :=
      match ca with
      | some c =>
        if c.eid ∈ seen1 then (none, seen1)
        else
          let r := tbe_init c (some seen1)
          (some r.1, r.2)
      | none => (none, seen1)
    let ctxRes : Option TBE × List Nat :=
      match co with
      | some c =>
        if c.eid ∈ causeRes.2 then (none, causeRes.2)
        else
          let r := tbe_init c (some causeRes.2)
          (some r.1, r.2)
      | none => (none, causeRes.2)
    -- the wrapper resumes: `seen_was_none`, then the embedded loop
    let seen_was_none := seenOpt.isNone
    let wseen := if seen_was_none then [] else ctxRes.2
    let embedded := if im then tbe_children cs wseen seen_was_none else []
    (.mk d causeRes.1 ctxRes.1 sp embedded, ctxRes.2)

/-- The `for exc in exc_value.exceptions` loop building `embedded`:
children whose identity is in `_seen` are skipped; the rest are captured
with a fresh `_seen` when the wrapper was entered with `None`, else with
a copy of the shared set. -/
def tbe_children : List RExc → List Nat → Bool → List TBE
  | [], _, _ => []
  | c :: rest, wseen, swn =>
    (if c.eid ∈ wseen then []
     else [(tbe_init c (if swn then none else some wseen)).1])
    ++ tbe_children rest wseen swn

end

/-- One yielded chunk of `format`, abstracted: the indentation depth that
`textwrap.indent` has applied, and what the chunk is. -/
inductive Tok where
  | descTok (d : Nat)
  | causeMsg
  | contextMsg
  | embedHeader (n : Nat)
  deriving DecidableEq

mutual

/-- The patched `traceback_exception_format` (source lines 443-448):
first the original `format` (the cause chain, or the context chain when
not suppressed, then this exception's own stack and description), then
one labelled, two-space-indented block per embedded exception. -/
def tbe_format : TBE → List (Nat × Tok)
  | .mk d ca co sp em =>
    (match ca with
     | some c => tbe_format c ++ [(0, .causeMsg)]
     | none =>
       match co, sp with
       | some c, false => tbe_format c ++ [(0, .contextMsg)]
       | _, _ => [])
    ++ [(0, .descTok d)]
    ++ tbe_format_embedded em 1

def tbe_format_embedded : List TBE → Nat → List (Nat × Tok)
  | [], _ => []
  | e :: rest, n =>
    [(0, .embedHeader n)] ++ (tbe_format e).map (fun p => (p.1 + 1, p.2))
      ++ tbe_format_embedded rest (n + 1)

end

/-- How many times the full description of the exception with description
token `d` appears anywhere in a rendering (at any indentation). -/
def countDesc (d : Nat) (ls : List (Nat × Tok)) : Nat :=
  ls.countP fun p => p.2 == Tok.descTok d

/-- Render an exception from the top level, as `trio_excepthook` does:
`TracebackException` is built with `_seen=None` and formatted. -/
def renderTop (e : RExc) : List (Nat × Tok) :=
  tbe_format (tbe_init e none).1

/-! ## Concrete inputs used by the evaluation theorems -/

/-- Handler that drops the leaf with identity 1 and keeps every other
leaf unchanged. -/
def bugHandler : Handler := fun l => if l.eid == 1 then none else some l

/-- A propagated tree `M(tb=[1])[ A(tb=[2]), S(tb=[3])[ B(tb=[4]),
C(tb=[5]) ] ]`: the root holds frame 1, accumulated while it propagated;
the inner aggregate `S` (identity 11) holds frame 3. -/
def bugTree : ETree :=
  .node 10 [1] none
    [.leaf 1 [2] none,
     .node 11 [3] none [.leaf 2 [4] none, .leaf 3 [5] none]]

/-- An atomic error `E`. -/
def excE : RExc := .mk 1 10 false [] none none false

/-- An atomic error `F` whose explicit cause is `E` (same identity 1). -/
def excF : RExc := .mk 2 20 false [] (some excE) none true

/-- The aggregate `M = MultiError([E, F])`: `E` is reachable both as a
direct member and as `F`'s cause. -/
def excM : RExc := .mk 3 30 true [excE, excF] none none false

/-! ## Theorems -/

/-- Unfolding of the fold at the heart of `concat_tb`: folding the
copy-and-relink step over a list of traceback objects prepends their
frames, reversed, to the frames of the chain folded onto. -/
theorem concat_fold_frames (l : List TBObj) (cur : TBChain × Nat) :
    tbFrames ((l.foldl
        (fun cur tb =>
          let (t, c') := copy_tb cur.2 tb cur.1
          (t, c')) cur).1)
      = (l.map TBObj.frame).reverse ++ tbFrames cur.1 := by
  induction l generalizing cur with
  | nil => simp
  | cons x l ih =>
    rw [List.foldl_cons, ih]
    simp [copy_tb, tbFrames]

/-- Claim C9: for every diagnostic chain `head` and chain `tail` (either
may be empty), `concat_tb head tail` returns a chain whose frame sequence
is exactly `head`'s frames, in order, followed by `tail`'s frames, in
order. -/
theorem concat_tb_frames (ctr : Nat) (head tail : TBChain) :
    tbFrames (concat_tb ctr head tail).1 = tbFrames head ++ tbFrames tail := by
  unfold concat_tb
  rw [concat_fold_frames]
  simp [tbFrames]

/-- Claim C10: `concat_tb` with an empty head returns `tail` itself — the
very same chain, with the allocation counter untouched, so no traceback
object of `tail` is copied and no frame is re-walked: the empty chain is a
left identity of concatenation. -/
theorem concat_tb_none_left_identity (ctr : Nat) (tail : TBChain) :
    concat_tb ctr [] tail = (tail, ctr) := rfl

/-- Claim C2, counterexample: `MultiError([])` does not fail at all — the
empty list falls into the generic branch of `__new__` and a `MultiError`
object with zero children is allocated and returned. -/
theorem multiError_build_empty_no_failure :
    MultiError_build 0 [] = Except.ok (ETree.node 0 [] none [], 1) := rfl

/-- Claim C2 as amended: calling the tree constructor with an empty
sequence of children raises nothing and returns a freshly allocated
aggregate node with zero children. -/
theorem multiError_build_empty_builds_zero_child (ctr : Nat) :
    MultiError_build ctr [] = Except.ok (ETree.node ctr [] none [], ctr + 1) := rfl

/-- Claim C5: for a sequence of two or more error values the constructor
returns a freshly allocated aggregate node holding exactly those children
in the given order (traceback and context unset); for a length-1 sequence
it returns that element itself, with the allocation counter untouched (no
wrapping, identity preserved). -/
theorem multiError_new_wraps_or_collapses (ctr : Nat) (excs : List ETree) (e : ETree) :
    (2 ≤ excs.length →
      MultiError_new ctr excs = (ETree.node ctr [] none excs, ctr + 1))
    ∧ MultiError_new ctr [e] = (e, ctr) := by
  refine ⟨?_, rfl⟩
  intro hlen
  match excs, hlen with
  | x :: y :: rest, _ => rfl

/-- Witness for claim C5 at a concrete two-element input. -/
theorem multiError_new_wraps_or_collapses_witness :
    MultiError_new 5 [ETree.leaf 1 [] none, ETree.leaf 2 [] none]
      = (ETree.node 5 [] none [ETree.leaf 1 [] none, ETree.leaf 2 [] none], 6) :=
  (multiError_new_wraps_or_collapses 5
    [ETree.leaf 1 [] none, ETree.leaf 2 [] none] (ETree.leaf 1 [] none)).1
    (by decide)

/-- Composing the two context writes of `__exit__` keeps only the second. -/
theorem setCtx_setCtx (t : ETree) (a b : Option Nat) :
    (t.setCtx a).setCtx b = t.setCtx b := by
  cases t <;> rfl

/-- Writing back an exception's own context link is the identity. -/
theorem setCtx_ctx (t : ETree) : t.setCtx t.ctx = t := by
  cases t <;> rfl

/-- Claim C7: whenever the handler maps a leaf to a different error object
(and not to `None`), the filter sets the replacement's implicit-context
link to the original leaf's error before placing it in the rebuilt tree. -/
theorem filter_replaced_leaf_ctx (h : Handler) (st : FSt) (i : Nat)
    (t : List Nat) (c : Option Nat) (r : ETree)
    (hr : h (ETree.leaf i t c) = some r) (hne : r ≠ ETree.leaf i t c) :
    (filter_tree h st (ETree.leaf i t c)).2 = some (r.setCtx (some i)) := by
  simp [filter_tree, hr, hne]

/-- Witness for claim C7: a handler replacing leaf 1 by a fresh leaf 2;
the result carries `__context__ = ` the original leaf. -/
theorem filter_replaced_leaf_ctx_witness :
    (filter_tree (fun _ => some (ETree.leaf 2 [] none)) ⟨0, [], []⟩
        (ETree.leaf 1 [] none)).2
      = some (ETree.leaf 2 [] (some 1)) := by
  have h1 := filter_replaced_leaf_ctx (fun _ => some (ETree.leaf 2 [] none))
    ⟨0, [], []⟩ 1 [] none (ETree.leaf 2 [] none) rfl (by decide)
  simpa [ETree.setCtx] using h1

/-- Claim C6: the catch guard's exit goes by cases on the filter result
`r`: `r` the propagating error itself lets the original propagation
continue; `r = None` suppresses, completing the region normally; any
other `r` is propagated as the replacement, and the propagated object's
implicit-context link ends up exactly what the filter set (the raise
bookkeeping's overwrite with the caught error is undone). -/
theorem catcher_exit_cases (h : Handler) (ctr : Nat) (exc : ETree) :
    ((filter_impl h ctr exc).1 = some exc →
      catcher_exit h ctr exc = CatchOutcome.reraiseOriginal)
    ∧ ((filter_impl h ctr exc).1 = none →
      catcher_exit h ctr exc = CatchOutcome.suppress)
    ∧ (∀ f, (filter_impl h ctr exc).1 = some f → f ≠ exc →
      catcher_exit h ctr exc = CatchOutcome.propagate f) := by
  refine ⟨?_, ?_, ?_⟩
  · intro hf
    simp [catcher_exit, hf]
  · intro hf
    simp [catcher_exit, hf]
  · intro f hf hne
    simp [catcher_exit, hf, hne, setCtx_setCtx, setCtx_ctx]

/-- Witness for claim C6, replacement case: the guard re-propagates the
replacement with its context link still pointing at the original leaf. -/
theorem catcher_exit_cases_witness :
    catcher_exit (fun _ => some (ETree.leaf 2 [] none)) 100 (ETree.leaf 1 [] none)
      = CatchOutcome.propagate (ETree.leaf 2 [] (some 1)) :=
  (catcher_exit_cases (fun _ => some (ETree.leaf 2 [] none)) 100
    (ETree.leaf 1 [] none)).2.2 (ETree.leaf 2 [] (some 1)) (by decide) (by decide)

mutual

/-- The shape pass appends, to the call log, exactly the identities of the
subtree's leaves in pre-order. -/
theorem filter_tree_calls (h : Handler) (st : FSt) (t : ETree) :
    (filter_tree h st t).1.calls = st.calls ++ (leaves t).map ETree.eid := by
  match t with
  | .leaf i tb c =>
    cases hh : h (.leaf i tb c) with
    | none => simp [filter_tree, leaves, hh, ETree.eid]
    | some r =>
      by_cases hr : r = ETree.leaf i tb c <;>
        simp [filter_tree, leaves, hh, hr, ETree.eid]
  | .node i tb c cs =>
    have hl := filter_list_calls h st cs
    simp only [filter_tree, leaves]
    split
    · simpa using hl
    · split <;> simpa using hl

/-- List version of `filter_tree_calls`, for the child loop. -/
theorem filter_list_calls (h : Handler) (st : FSt) (cs : List ETree) :
    (filter_list h st cs).1.calls = st.calls ++ (leavesList cs).map ETree.eid := by
  match cs with
  | [] => simp [filter_list, leavesList]
  | e :: rest =>
    have he := filter_tree_calls h st e
    have hr := filter_list_calls h (filter_tree h st e).1 rest
    simp only [filter_list, leavesList]
    rw [hr, he]
    simp

end

/-- Claim C8: `filter` invokes the handler exactly once per leaf, in leaf
pre-order (depth-first, left-to-right in child order): the handler call
log equals the pre-order list of leaf identities, and under distinct leaf
identities every leaf's identity occurs in it exactly once. -/
theorem filter_calls_preorder_once (h : Handler) (ctr : Nat) (t : ETree)
    (hnd : ((leaves t).map ETree.eid).Nodup) :
    (filter_impl h ctr t).2.1.calls = (leaves t).map ETree.eid
    ∧ ∀ l ∈ leaves t, ((filter_impl h ctr t).2.1.calls).count l.eid = 1 := by
  have hc : (filter_impl h ctr t).2.1.calls = (leaves t).map ETree.eid := by
    simpa using filter_tree_calls h ⟨ctr, [], []⟩ t
  refine ⟨hc, fun l hl => ?_⟩
  rw [hc]
  exact List.count_eq_one_of_mem hnd (List.mem_map_of_mem ETree.eid hl)

/-- Witness for claim C8 on a two-leaf tree: the handler is called on
leaves 1 then 2, each exactly once. -/
theorem filter_calls_preorder_once_witness :
    (filter_impl (fun _ => none) 0
        (ETree.node 10 [] none
          [ETree.leaf 1 [] none, ETree.leaf 2 [] none])).2.1.calls = [1, 2] := by
  have h1 := filter_calls_preorder_once (fun _ => none) 0
    (ETree.node 10 [] none [ETree.leaf 1 [] none, ETree.leaf 2 [] none])
    (by decide)
  simpa using h1.1

mutual

/-- Replaying an empty mutation log changes nothing. -/
theorem applyTb_nil (t : ETree) : applyTb [] t = t := by
  match t with
  | .leaf i tb c => simp [applyTb, lastTb]
  | .node i tb c cs => simp [applyTb, lastTb, applyTbList_nil cs]

theorem applyTbList_nil (cs : List ETree) : applyTbList [] cs = cs := by
  match cs with
  | [] => rfl
  | e :: rest => simp [applyTbList, applyTb_nil e, applyTbList_nil rest]

end

mutual

/-- When the handler returns every leaf unchanged, the shape pass returns
each subtree as the identical object and allocates nothing. -/
theorem filter_tree_id (h : Handler) (st : FSt) (t : ETree)
    (hid : ∀ l ∈ leaves t, h l = some l) (hne : nonEmptyNodes t = true) :
    (filter_tree h st t).2 = some t ∧ (filter_tree h st t).1.ctr = st.ctr := by
  match t with
  | .leaf i tb c =>
    have hh := hid (ETree.leaf i tb c) (by simp [leaves])
    simp [filter_tree, hh]
  | .node i tb c cs =>
    have hcs : ∀ l ∈ leavesList cs, h l = some l := by
      intro l hl
      exact hid l (by simpa [leaves] using hl)
    have hne' : (cs.isEmpty = false) ∧ nonEmptyNodesList cs = true := by
      simpa [nonEmptyNodes] using hne
    have hl := filter_list_id h st cs hcs hne'.2
    simp only [filter_tree]
    rw [hl.1, hl.2.1]
    simp [hne'.1, hl.2.2]

/-- List version of `filter_tree_id`: the child loop returns the original
children, reports no change, and allocates nothing. -/
theorem filter_list_id (h : Handler) (st : FSt) (cs : List ETree)
    (hid : ∀ l ∈ leavesList cs, h l = some l)
    (hne : nonEmptyNodesList cs = true) :
    (filter_list h st cs).2.1 = cs ∧ (filter_list h st cs).2.2 = false
    ∧ (filter_list h st cs).1.ctr = st.ctr := by
  match cs with
  | [] => simp [filter_list]
  | e :: rest =>
    have hne' : nonEmptyNodes e = true ∧ nonEmptyNodesList rest = true := by
      simpa [nonEmptyNodesList] using hne
    have hide : ∀ l ∈ leaves e, h l = some l := by
      intro l hl
      exact hid l (by simp [leavesList, hl])
    have hidr : ∀ l ∈ leavesList rest, h l = some l := by
      intro l hl
      exact hid l (by simp [leavesList, hl])
    have he := filter_tree_id h st e hide hne'.1
    have hr := filter_list_id h (filter_tree h st e).1 rest hidr hne'.2
    simp only [filter_list]
    rw [he.1]
    simp [hr.1, hr.2.1, he.2, hr.2.2]

end

/-- Claim C4: for every well-formed tree and every handler that returns
its input unchanged for every leaf, `filter` returns the identical tree —
same object, every subtree shared, nothing rebuilt or copied (the
allocation counter is untouched). -/
theorem filter_identity_handler_returns_same (h : Handler) (ctr : Nat) (t : ETree)
    (hid : ∀ l ∈ leaves t, h l = some l) (hne : nonEmptyNodes t = true) :
    (filter_impl h ctr t).1 = some t ∧ (filter_impl h ctr t).2.1.ctr = ctr := by
  match t with
  | .leaf i tb c =>
    have hh := hid (ETree.leaf i tb c) (by simp [leaves])
    simp [filter_impl, filter_tree, hh, push_tb_down, ETree.eid, applyTb, lastTb]
  | .node i tb c cs =>
    have hft := filter_tree_id h ⟨ctr, [], []⟩ (ETree.node i tb c cs) hid hne
    have hpres : (filter_tree h ⟨ctr, [], []⟩ (ETree.node i tb c cs)).1.preserved
        = i :: (filter_list h ⟨ctr, [], []⟩ cs).1.preserved := by
      have hcs : ∀ l ∈ leavesList cs, h l = some l := by
        intro l hl
        exact hid l (by simpa [leaves] using hl)
      have hne' : (cs.isEmpty = false) ∧ nonEmptyNodesList cs = true := by
        simpa [nonEmptyNodes] using hne
      have hl := filter_list_id h ⟨ctr, [], []⟩ cs hcs hne'.2
      simp only [filter_tree]
      rw [hl.1, hl.2.1]
      simp [hne'.1]
    have hpush : push_tb_down
        (filter_tree h ⟨ctr, [], []⟩ (ETree.node i tb c cs)).1.preserved []
        (ETree.node i tb c cs) = [] := by
      rw [hpres]
      simp [push_tb_down, ETree.eid]
    constructor
    · show ((filter_tree h ⟨ctr, [], []⟩ (ETree.node i tb c cs)).2.map
        (applyTb (push_tb_down
          (filter_tree h ⟨ctr, [], []⟩ (ETree.node i tb c cs)).1.preserved []
          (ETree.node i tb c cs)))) = some (ETree.node i tb c cs)
      rw [hpush, hft.1]
      simp [applyTb_nil]
    · show (filter_tree h ⟨ctr, [], []⟩ (ETree.node i tb c cs)).1.ctr = ctr
      exact hft.2

/-- Witness for claim C4: the identity handler on a concrete two-leaf
tree returns the very same tree with the counter unmoved. -/
theorem filter_identity_handler_returns_same_witness :
    (filter_impl (fun l => some l) 7
        (ETree.node 10 [1] none
          [ETree.leaf 1 [2] none, ETree.leaf 2 [3] none])).1
      = some (ETree.node 10 [1] none
          [ETree.leaf 1 [2] none, ETree.leaf 2 [3] none]) :=
  (filter_identity_handler_returns_same (fun l => some l) 7
    (ETree.node 10 [1] none [ETree.leaf 1 [2] none, ETree.leaf 2 [3] none])
    (by decide) (by decide)).1

/-- Claim C1, evaluation at the failing input: before filtering, the
end-to-end chains of the surviving leaves 2 and 3 are `[1,3,4]` and
`[1,3,5]`; dropping leaf 1 preserves the subtree `S` (identity 11) but
rebuilds its parent, which collapses to `S` itself, and `push_tb_down`
stops at the preserved `S` — so the root's frame 1 disappears from both
surviving chains, contradicting the invariant stated in the source's own
comment (lines 45-51). -/
theorem filter_chain_invariant_violated :
    leafChains [] bugTree = [(1, [1, 2]), (2, [1, 3, 4]), (3, [1, 3, 5])]
    ∧ (filter_impl bugHandler 100 bugTree).1
        = some (ETree.node 11 [3] none
            [ETree.leaf 2 [4] none, ETree.leaf 3 [5] none])
    ∧ ((filter_impl bugHandler 100 bugTree).1.map (leafChains []))
        = some [(2, [3, 4]), (3, [3, 5])] := by
  decide

/-- Claim C3, counterexample: in `M = MultiError([E, F])` with `F`'s
explicit cause `E`, the renderer emits `E`'s full description twice (once
as embedded block 1 and once inside embedded block 2's cause chain), not
once. -/
theorem render_shared_cause_rendered_twice :
    countDesc 10 (renderTop excM) ≠ 1 ∧ countDesc 10 (renderTop excM) = 2 := by
  decide

/-- Claim C3 as amended: the seen set only suppresses re-embedding of
errors already recorded on the current rendering path; it is copied per
embedded branch — and at top level every embedded branch starts with a
fresh seen set — so an atomic error reachable through two sibling
branches, such as one that is both a direct aggregate member and the
explicit cause of another member, has its full description emitted once
per branch (here: twice), not once overall. -/
theorem render_shared_cause_once_per_branch (dE dF dM : Nat)
    (h1 : dE ≠ dF) (h2 : dE ≠ dM) :
    countDesc dE (renderTop (RExc.mk 3 dM true
      [RExc.mk 1 dE false [] none none false,
       RExc.mk 2 dF false []
         (some (RExc.mk 1 dE false [] none none false)) none true]
      none none false)) = 2 := by
  have hr : renderTop (RExc.mk 3 dM true
      [RExc.mk 1 dE false [] none none false,
       RExc.mk 2 dF false []
         (some (RExc.mk 1 dE false [] none none false)) none true]
      none none false)
      = [(0, Tok.descTok dM), (0, Tok.embedHeader 1), (1, Tok.descTok dE),
         (0, Tok.embedHeader 2), (1, Tok.descTok dE), (1, Tok.causeMsg),
         (1, Tok.descTok dF)] := rfl
  rw [hr]
  simp [countDesc, List.countP_cons, Ne.symm h1, Ne.symm h2]

/-- Witness for the amended claim C3 at concrete descriptions. -/
theorem render_shared_cause_once_per_branch_witness :
    countDesc 7 (renderTop (RExc.mk 3 9 true
      [RExc.mk 1 7 false [] none none false,
       RExc.mk 2 8 false []
         (some (RExc.mk 1 7 false [] none none false)) none true]
      none none false)) = 2 :=
  render_shared_cause_once_per_branch 7 8 9 (by decide) (by decide)

end MultiErrorModel
